import Mathlib

/-!
Verification development for the "ash" shell.

Shallow embedding of the C sources (tokenizer.c, src/alias.c, src/arith.c,
src/vars.c, src/builtins.c, src/jobs.c, src/shell.c, src/parser.c) into Lean,
together with theorems settling the specification claims.

Modelling conventions:
* C strings become `String`/`List Char`; fixed-size C buffers are modelled as
  unbounded lists (buffer-overflow UB is outside the model), except where the
  code itself truncates (`strncpy`) or checks a capacity, which is modelled
  exactly.
* `long`/`int` become `Int`; C signed division/modulo are `Int.tdiv`/`Int.tmod`
  (truncation towards zero, remainder with the dividend's sign).
* Effects of child processes (exec, pipes, wait statuses, glob(3) filesystem
  results, chdir) are supplied by an `OsEnv` oracle; the shell's own state is
  threaded explicitly.
* Loops whose trip count the C code does not bound are given fuel; the fuel is
  chosen large enough that it is never exhausted on the runs the theorems talk
  about (where the C code itself diverges, the model just stops consuming).
-/

namespace Ash

/-! ## Character classification (ctype.h, default locale) -/

def cIsSpaceB (c : Char) : Bool :=
  c = ' ' || c = '\t' || c = '\n' || c = '\r' || c = Char.ofNat 11 || c = Char.ofNat 12

def cIsDigitB (c : Char) : Bool := '0' ≤ c && c ≤ '9'

def cIsAlphaB (c : Char) : Bool := ('a' ≤ c && c ≤ 'z') || ('A' ≤ c && c ≤ 'Z')

def cIsAlnumB (c : Char) : Bool := cIsDigitB c || cIsAlphaB c

/-- `atol`/`atoi`: optional leading whitespace, optional sign, leading digits. -/
def digitsVal (l : List Char) : Int :=
  l.foldl (fun a c => a * 10 + (Int.ofNat (c.toNat - '0'.toNat))) 0

def cAtoi (s : List Char) : Int :=
  let s1 := s.dropWhile cIsSpaceB
  match s1 with
  | '-' :: rest => - digitsVal (rest.takeWhile cIsDigitB)
  | '+' :: rest => digitsVal (rest.takeWhile cIsDigitB)
  | _ => digitsVal (s1.takeWhile cIsDigitB)

/-- `strstr`: index of the first occurrence of `pat` in `hay`. -/
def substrIdx (hay pat : List Char) : Option Nat :=
  (List.range (hay.length + 1)).find? (fun i => pat.isPrefixOf (hay.drop i))

def strTake (s : String) (k : Nat) : String := ⟨s.data.take k⟩

def strStartsWith (s pre : String) : Bool := pre.data.isPrefixOf s.data

/-- `strchr`-style first index satisfying a predicate. -/
def findIdxA {α : Type} (pred : α → Bool) : List α → Option Nat
  | [] => none
  | a :: l => if pred a then some 0 else (findIdxA pred l).map (fun k => k + 1)

/-- Split at every character satisfying `p`, keeping empty fields
(the semantics of `String.split` / repeated `strchr`). -/
def splitOnPred (p : Char → Bool) : List Char → List (List Char)
  | [] => [[]]
  | c :: rest =>
    let r := splitOnPred p rest
    if p c then [] :: r
    else
      match r with
      | [] => [[c]]
      | h :: t => (c :: h) :: t

def strSplit (s : String) (p : Char → Bool) : List String :=
  (splitOnPred p s.data).map (fun l => ⟨l⟩)

/-- Space-joined concatenation (`strcat` with `" "` separators). -/
def joinSpace : List String → String
  | [] => ""
  | [a] => a
  | a :: b :: rest => a ++ " " ++ joinSpace (b :: rest)

def natDigits : Nat → Nat → List Char
  | 0, _ => []
  | f + 1, n =>
    if n < 10 then [Char.ofNat (48 + n)]
    else natDigits f (n / 10) ++ [Char.ofNat (48 + n % 10)]

def natToString (n : Nat) : String := ⟨natDigits (n + 1) n⟩

/-- `%ld` formatting of a signed integer. -/
def intToString (v : Int) : String :=
  match v with
  | Int.ofNat n => ⟨natDigits (n + 1) n⟩
  | Int.negSucc m => ⟨'-' :: natDigits (m + 2) (m + 1)⟩

/-! ## Tokenizer: `split_command_line` (tokenizer.c lines 70-162)

State machine with states NORMAL / IN_SQUOTE / IN_DQUOTE over one logical
line.  `cur` is the token buffer (`token`/`tpos`), `acc` the emitted words
(`args`/`count`).  A pending token is flushed on unquoted blank and at end of
input; entering or leaving quotes does not touch the buffer, so a quoted
empty string contributes no word at all. -/

inductive QMode | norm | sq | dq
deriving DecidableEq, Repr

def sclRun : QMode → List Char → List Char → List (List Char) → List (List Char)
  | _, cur, [], acc => if cur = [] then acc else acc ++ [cur]
  | QMode.norm, cur, c :: rest, acc =>
    if c = ' ' || c = '\t' then
      if cur = [] then sclRun QMode.norm [] rest acc
      else sclRun QMode.norm [] rest (acc ++ [cur])
    else if c = '\'' then sclRun QMode.sq cur rest acc
    else if c = '"' then sclRun QMode.dq cur rest acc
    else if c = '\\' then
      match rest with
      | [] => if cur = [] then acc else acc ++ [cur]
      | d :: rest2 => sclRun QMode.norm (cur ++ [d]) rest2 acc
    else sclRun QMode.norm (cur ++ [c]) rest acc
  | QMode.sq, cur, c :: rest, acc =>
    if c = '\'' then sclRun QMode.norm cur rest acc
    else sclRun QMode.sq (cur ++ [c]) rest acc
  | QMode.dq, cur, c :: rest, acc =>
    if c = '"' then sclRun QMode.norm cur rest acc
    else if c = '\\' && (rest.head? = some '"' || rest.head? = some '\\') then
      match rest with
      | d :: rest2 => sclRun QMode.dq (cur ++ [d]) rest2 acc
      | [] => if cur ++ [c] = [] then acc else acc ++ [cur ++ [c]]
    else sclRun QMode.dq (cur ++ [c]) rest acc

def splitCommandLine (s : String) : List String :=
  (sclRun QMode.norm [] s.data []).map (fun l => ⟨l⟩)

/-! ## Quoted forms used by the round-trip claim (spec §4.1) -/

/-- W enclosed in single quotes. -/
def sqQuoteForm (w : String) : String := ⟨'\'' :: w.data ++ ['\'']⟩

/-- The double-quote escape applied to one character: `"` and `\` get a
backslash, everything else is kept. -/
def dqEscapeChar (c : Char) : List Char :=
  if c = '"' || c = '\\' then ['\\', c] else [c]

/-- W enclosed in double quotes with `\"` and `\\` escapes applied. -/
def dqQuoteForm (w : String) : String :=
  ⟨'"' :: (w.data.flatMap dqEscapeChar) ++ ['"']⟩

/-! ## Variable store (src/vars.c lines 18-63, MAX_VARS 64, MAX_VAR_NAME 64,
MAX_VAR_VALUE 256)

Slots are never freed, so the 64-slot array with `in_use` flags is an
assoc list in slot order with a capacity check.  `set_var` looks the full
name up (`find_var` uses `strcmp` against the stored, truncated name) and
`strncpy`-truncates what it stores. -/

abbrev VarStore := List (String × String)

def getVar (vs : VarStore) (n : String) : Option String :=
  (vs.find? (fun p => p.1 == n)).map (fun p => p.2)

def setVar (vs : VarStore) (n v : String) : VarStore :=
  if (vs.find? (fun p => p.1 == n)).isSome then
    vs.map (fun p => if p.1 == n then (p.1, strTake v 255) else p)
  else if vs.length < 64 then vs ++ [(strTake n 63, strTake v 255)]
  else vs

/-! ## Alias store and expansion (src/alias.c, MAX_ALIASES 64)

`unset_alias` frees a slot for reuse; since `set_alias` keeps names unique,
lookup through an assoc list is equivalent to the slot scan. -/

abbrev AliasStore := List (String × String)

def getAliasL (al : AliasStore) (n : String) : Option String :=
  (al.find? (fun p => p.1 == n)).map (fun p => p.2)

def setAliasL (al : AliasStore) (n v : String) : AliasStore :=
  if (al.find? (fun p => p.1 == n)).isSome then
    al.map (fun p => if p.1 == n then (p.1, v) else p)
  else if al.length < 64 then al ++ [(strTake n 63, v)]
  else al

def unsetAliasL (al : AliasStore) (n : String) : AliasStore :=
  al.filter (fun p => !(p.1 == n))

/-- One substitution of `expand_aliases` (src/alias.c lines 74-98): look the
first word up; an alias whose value tokenizes to nothing ends the loop
without substituting; otherwise the tokenized value replaces the first word
and the remaining arguments are kept in order. -/
def aliasStep (al : AliasStore) (args : List String) : Option (List String) :=
  match args with
  | [] => none
  | w :: rest =>
    match getAliasL al w with
    | none => none
    | some v =>
      let tv := splitCommandLine v
      if tv.isEmpty then none else some (tv ++ rest)

def expandAliasesAux (al : AliasStore) : Nat → List String → List String
  | 0, args => args
  | n + 1, args =>
    match aliasStep al args with
    | none => args
    | some args2 => expandAliasesAux al n args2

/-- `expand_aliases` (src/alias.c lines 68-101): `while (depth++ < 10)`. -/
def expandAliases (al : AliasStore) (args : List String) : List String :=
  expandAliasesAux al 10 args

/-! ## Arithmetic evaluator (src/arith.c)

Recursive-descent parser over the remaining input (the C global `p`), with
the sticky `ok_flag` threaded as a returned Bool (it is only ever cleared,
never read, during a parse).  The mutual recursion is paid for with fuel;
`evalArith` supplies more fuel than any input can consume (each recursion
level consumes at least one input character). -/

def parseNumberA (s : List Char) : Int × List Char × Bool :=
  let s1 := s.dropWhile cIsSpaceB
  match s1 with
  | '-' :: rest =>
    if rest.head?.any cIsDigitB then
      let ds := rest.takeWhile cIsDigitB
      (-digitsVal ds, rest.drop ds.length, true)
    else (0, rest, false)
  | _ =>
    if s1.head?.any cIsDigitB then
      let ds := s1.takeWhile cIsDigitB
      (digitsVal ds, s1.drop ds.length, true)
    else (0, s1, false)

def cIsVarCharB (c : Char) : Bool := cIsAlnumB c || c = '_'

/-- `parse_var`: reads an identifier (storing at most 63 chars of it), then
resolves it; an undefined variable clears the flag and yields 0, a defined
one goes through `atol`. -/
def parseVarA (vars : VarStore) (s : List Char) : Int × List Char × Bool :=
  let s1 := s.dropWhile cIsSpaceB
  let raw := s1.takeWhile cIsVarCharB
  let name : String := ⟨raw.take 63⟩
  let rest := s1.drop raw.length
  match getVar vars name with
  | none => (0, rest, false)
  | some v => (cAtoi v.data, rest, true)

mutual

def parseFactorA (vars : VarStore) : Nat → List Char → Int × List Char × Bool
  | 0, s => (0, s, false)
  | fuel + 1, s =>
    let s1 := s.dropWhile cIsSpaceB
    match s1 with
    | '(' :: rest =>
      let (v, r1, ok1) := parseExprA vars fuel rest
      let r2 := r1.dropWhile cIsSpaceB
      match r2 with
      | ')' :: r3 => (v, r3, ok1)
      | _ => (0, r2, false)
    | _ =>
      if s1.head?.any cIsDigitB ||
         (s1.head? = some '-' && (s1.drop 1).head?.any cIsDigitB) then
        parseNumberA s1
      else parseVarA vars s1

def parseTermA (vars : VarStore) : Nat → List Char → Int × List Char × Bool
  | 0, s => (0, s, false)
  | fuel + 1, s =>
    let (v, r, ok) := parseFactorA vars fuel s
    parseTermLoopA vars fuel v r ok

def parseTermLoopA (vars : VarStore) : Nat → Int → List Char → Bool →
    Int × List Char × Bool
  | 0, v, r, ok => (v, r, ok)
  | fuel + 1, v, r, ok =>
    let r1 := r.dropWhile cIsSpaceB
    match r1 with
    | '*' :: r2 =>
      let (w, r3, ok2) := parseFactorA vars fuel r2
      parseTermLoopA vars fuel (v * w) r3 (ok && ok2)
    | '/' :: r2 =>
      let (w, r3, ok2) := parseFactorA vars fuel r2
      if w = 0 then (0, r3, false)
      else parseTermLoopA vars fuel (Int.tdiv v w) r3 (ok && ok2)
    | '%' :: r2 =>
      let (w, r3, ok2) := parseFactorA vars fuel r2
      if w = 0 then (0, r3, false)
      else parseTermLoopA vars fuel (Int.tmod v w) r3 (ok && ok2)
    | _ => (v, r1, ok)

def parseExprA (vars : VarStore) : Nat → List Char → Int × List Char × Bool
  | 0, s => (0, s, false)
  | fuel + 1, s =>
    let (v, r, ok) := parseTermA vars fuel s
    parseExprLoopA vars fuel v r ok

def parseExprLoopA (vars : VarStore) : Nat → Int → List Char → Bool →
    Int × List Char × Bool
  | 0, v, r, ok => (v, r, ok)
  | fuel + 1, v, r, ok =>
    let r1 := r.dropWhile cIsSpaceB
    match r1 with
    | '+' :: r2 =>
      let (w, r3, ok2) := parseTermA vars fuel r2
      parseExprLoopA vars fuel (v + w) r3 (ok && ok2)
    | '-' :: r2 =>
      let (w, r3, ok2) := parseTermA vars fuel r2
      parseExprLoopA vars fuel (v - w) r3 (ok && ok2)
    | _ => (v, r1, ok)

end

/-- `eval_arith` (src/arith.c lines 139-150): parse an expression, skip
trailing whitespace, and fail if input remains. -/
def evalArith (vars : VarStore) (s : String) : Int × Bool :=
  let (v, r, ok) := parseExprA vars (3 * s.data.length + 8) s.data
  let r1 := r.dropWhile cIsSpaceB
  (v, ok && r1.isEmpty)

/-- `expand_arith_subst` (src/arith.c lines 153-180): substitute the first
`$((expr))`; `none` when there is no construct, the expression is ≥ 256
bytes, or evaluation fails. -/
def expandArithSubst (vars : VarStore) (arg : String) : Option String :=
  match substrIdx arg.data ['$', '(', '('] with
  | none => none
  | some i =>
    let after := arg.data.drop (i + 3)
    match substrIdx after [')', ')'] with
    | none => none
    | some j =>
      let e := after.take j
      if 256 ≤ e.length then none
      else
        let (v, ok) := evalArith vars ⟨e⟩
        if ok then
          some ⟨arg.data.take i ++ (intToString v).data ++ after.drop (j + 2)⟩
        else none

/-! ## Job table (src/jobs.c, MAX_JOBS 32)

The fixed array `jobs[MAX_JOBS]` is a list of exactly 32 records; the C
global `job_count` is carried alongside so that the claimed invariant
(count = number of occupied slots) can be stated about the code, not built
into the model. -/

structure JobRec where
  pid : Int
  pgid : Int
  jobId : Int
  running : Bool
  foreground : Bool
  notified : Bool
  command : String
deriving DecidableEq, Repr

def emptyJob : JobRec :=
  { pid := -1, pgid := -1, jobId := -1, running := false, foreground := false,
    notified := false, command := "" }

structure JTable where
  slots : List JobRec
  count : Int
deriving DecidableEq, Repr

/-- `jobs_init` (src/jobs.c lines 17-30). -/
def jobsInit : JTable := { slots := List.replicate 32 emptyJob, count := 0 }

/-- `alloc_job_slot` (src/jobs.c lines 33-41): index of the lowest slot whose
pid is -1. -/
def allocJobSlot (t : JTable) : Option Nat :=
  findIdxA (fun j => j.pid = -1) t.slots

/-- `add_job` (src/jobs.c lines 44-65).  Returns the new table and the job id
(slot index + 1), or -1 when the table is full.  The command text is
`strncpy`-truncated to MAX_INPUT_SIZE-1 bytes. -/
def addJob (t : JTable) (pid pgid : Int) (command : String) (bg : Bool) :
    JTable × Int :=
  match allocJobSlot t with
  | none => (t, -1)
  | some i =>
    let j : JobRec :=
      { pid := pid, pgid := pgid, jobId := Int.ofNat i + 1, running := true,
        foreground := !bg, notified := false, command := strTake command 1023 }
    ({ slots := t.slots.set i j, count := t.count + 1 }, Int.ofNat i + 1)

/-- `remove_job` (src/jobs.c lines 68-82): ids outside 1..32 and already-free
slots are ignored. -/
def removeJob (t : JTable) (jobId : Int) : JTable :=
  if jobId ≤ 0 || 32 < jobId then t
  else
    let i := (jobId - 1).toNat
    match t.slots.get? i with
    | none => t
    | some j =>
      if j.pid = -1 then t
      else { slots := t.slots.set i emptyJob, count := t.count - 1 }

/-- `find_job_by_pid` (src/jobs.c lines 85-93): index of the first slot with
this pid. -/
def findJobByPid (t : JTable) (pid : Int) : Option Nat :=
  findIdxA (fun j => j.pid = pid) t.slots

/-! ### Asynchronous reaper (src/jobs.c lines 110-140)

`waitpid(-1, WNOHANG | WUNTRACED)` delivers a sequence of per-child events;
children without a job-table entry are skipped.  `WIFEXITED`/`WIFSIGNALED`
are merged into one `exited` event since the code treats them identically. -/

inductive WaitEv
  | stopped (pid : Int)
  | exited (pid : Int)
deriving DecidableEq, Repr

inductive Notice
  | stoppedN (id : Int) (cmd : String)
  | doneN (id : Int) (cmd : String)
deriving DecidableEq, Repr

/-- One iteration of the `check_background_jobs` loop body. -/
def reapEvent (t : JTable) (ev : WaitEv) : JTable × List Notice :=
  match ev with
  | WaitEv.stopped pid =>
    match findJobByPid t pid with
    | none => (t, [])
    | some i =>
      match t.slots.get? i with
      | none => (t, [])
      | some j =>
        let j1 := { j with running := false }
        if j.notified then ({ t with slots := t.slots.set i j1 }, [])
        else
          ({ t with slots := t.slots.set i { j1 with notified := true } },
           [Notice.stoppedN j.jobId j.command])
  | WaitEv.exited pid =>
    match findJobByPid t pid with
    | none => (t, [])
    | some i =>
      match t.slots.get? i with
      | none => (t, [])
      | some j =>
        if j.notified then (removeJob t j.jobId, [])
        else
          (removeJob { t with slots := t.slots.set i { j with notified := true } }
             j.jobId,
           [Notice.doneN j.jobId j.command])

/-- `check_background_jobs`: fold the reaper body over the events the
non-blocking `waitpid` loop delivers, collecting the printed notices. -/
def checkBackgroundJobs (t : JTable) (evs : List WaitEv) : JTable × List Notice :=
  evs.foldl (fun acc ev =>
    let (t1, ns) := reapEvent acc.1 ev
    (t1, acc.2 ++ ns)) (t, [])

/-! ## Helpers of src/shell.c and src/parser.c -/

def isSpTabB (c : Char) : Bool := c = ' ' || c = '\t'

/-- `trim` in src/shell.c lines 74-79 (spaces and tabs only). -/
def shTrim (s : String) : String :=
  ⟨((s.data.dropWhile isSpTabB).reverse.dropWhile isSpTabB).reverse⟩

/-- `trim` in src/parser.c lines 14-19 (isspace). -/
def psTrim (s : String) : String :=
  ⟨((s.data.dropWhile cIsSpaceB).reverse.dropWhile cIsSpaceB).reverse⟩

/-- `find_logic_op` (src/shell.c lines 82-108): position of the first
unquoted `&&` (true) or `||` (false).  Backslash skips the next character
outside quotes and inside double quotes. -/
def findLogicOpAux : QMode → Nat → List Char → Option (Nat × Bool)
  | _, _, [] => none
  | QMode.norm, i, c :: rest =>
    if c = '\'' then findLogicOpAux QMode.sq (i + 1) rest
    else if c = '"' then findLogicOpAux QMode.dq (i + 1) rest
    else if c = '&' && rest.head? = some '&' then some (i, true)
    else if c = '|' && rest.head? = some '|' then some (i, false)
    else if c = '\\' then
      match rest with
      | [] => none
      | _ :: rest2 => findLogicOpAux QMode.norm (i + 2) rest2
    else findLogicOpAux QMode.norm (i + 1) rest
  | QMode.sq, i, c :: rest =>
    if c = '\'' then findLogicOpAux QMode.norm (i + 1) rest
    else findLogicOpAux QMode.sq (i + 1) rest
  | QMode.dq, i, c :: rest =>
    if c = '"' then findLogicOpAux QMode.norm (i + 1) rest
    else if c = '\\' then
      match rest with
      | [] => none
      | _ :: rest2 => findLogicOpAux QMode.dq (i + 2) rest2
    else findLogicOpAux QMode.dq (i + 1) rest

def findLogicOp (s : String) : Option (Nat × Bool) :=
  findLogicOpAux QMode.norm 0 s.data

def dropTrailingBlanks (l : List Char) : List Char :=
  (l.reverse.dropWhile isSpTabB).reverse

/-- Background detection (src/shell.c lines 921-936): strip trailing blanks,
then a trailing `&`, then blanks again. -/
def stripBackground (s : String) : String × Bool :=
  let l := dropTrailingBlanks s.data
  match l.getLast? with
  | some '&' => (⟨dropTrailingBlanks l.dropLast⟩, true)
  | _ => (⟨l⟩, false)

/-- `split_pipeline` (src/shell.c lines 722-752): cut the raw line at every
unquoted `|` not followed by `|`; each segment is trimmed; at most 64
segments are kept. -/
def splitPipelineAux : QMode → List Char → List Char → List String → List String
  | _, cur, [], acc => acc ++ [shTrim ⟨cur⟩]
  | QMode.norm, cur, c :: rest, acc =>
    if c = '\\' && rest ≠ [] then
      match rest with
      | d :: rest2 => splitPipelineAux QMode.norm (cur ++ [c, d]) rest2 acc
      | [] => acc ++ [shTrim ⟨cur ++ [c]⟩]
    else if c = '\'' then splitPipelineAux QMode.sq (cur ++ [c]) rest acc
    else if c = '"' then splitPipelineAux QMode.dq (cur ++ [c]) rest acc
    else if c = '|' && rest.head? ≠ some '|' then
      splitPipelineAux QMode.norm [] rest (acc ++ [shTrim ⟨cur⟩])
    else splitPipelineAux QMode.norm (cur ++ [c]) rest acc
  | QMode.sq, cur, c :: rest, acc =>
    if c = '\'' then splitPipelineAux QMode.norm (cur ++ [c]) rest acc
    else splitPipelineAux QMode.sq (cur ++ [c]) rest acc
  | QMode.dq, cur, c :: rest, acc =>
    if c = '"' then splitPipelineAux QMode.norm (cur ++ [c]) rest acc
    else if c = '\\' && rest ≠ [] then
      match rest with
      | d :: rest2 => splitPipelineAux QMode.dq (cur ++ [c, d]) rest2 acc
      | [] => acc ++ [shTrim ⟨cur ++ [c]⟩]
    else splitPipelineAux QMode.dq (cur ++ [c]) rest acc

def splitPipeline (s : String) : List String :=
  (splitPipelineAux QMode.norm [] s.data []).take 64

/-- `contains_glob_chars` (src/globbing.c lines 10-16). -/
def containsGlobChars (s : String) : Bool :=
  s.data.any (fun c => c = '*' || c = '?' || c = '[')

/-! ## Environment oracle and shell state

All interaction with the operating system (children, their wait statuses and
captured output, the filesystem, chdir) is a parameter of the model; the
shell's own mutable globals (`vars`, `aliases`, the function table, the job
table, `last_status`, the parser's `loop_control_flag`) live in `St`.
`executed` is a ghost log of every external command the parent forks and
execs; `exited` records that the `exit` builtin ended the process (with
status `EXIT_SUCCESS`, i.e. 0). -/

structure OsEnv where
  /-- Raw waitpid status of an external command run from the parent
  (src/shell.c line 403 turns any nonzero status into `last_status = 1`). -/
  extStatus : List String → Int
  /-- `capture_command_output` (src/vars.c lines 81-172): captured stdout of
  the subshell, with one trailing newline stripped; `none` models pipe/fork
  failure, in which case the substitution is abandoned. -/
  subshellRes : String → Option String
  /-- glob(3) results for a pattern; `none` covers GLOB_NOMATCH and errors,
  where the literal word is kept (src/globbing.c lines 72-97). -/
  glob : String → Option (List String)
  chdirOk : String → Bool
  /-- File contents for `source` and script mode; `none` = fopen failure. -/
  fileText : String → Option String
  /-- `job.running` after `put_job_in_foreground`'s wait (false unless the
  blocking waitpid itself failed; src/shell.c lines 484-513). -/
  fgWaitRunning : Int → Bool

structure St where
  vars : VarStore
  aliases : AliasStore
  funcs : List (String × List String)
  penv : List (String × String)
  jobs : JTable
  lastStatus : Int
  exited : Bool
  loopFlag : Nat
  executed : List (List String)
deriving Repr, DecidableEq

def penvGet (e : List (String × String)) (n : String) : Option String :=
  (e.find? (fun p => p.1 == n)).map (fun p => p.2)

def penvSet (e : List (String × String)) (n v : String) : List (String × String) :=
  if (e.find? (fun p => p.1 == n)).isSome then
    e.map (fun p => if p.1 == n then (p.1, v) else p)
  else e ++ [(n, v)]

/-! ## Command substitution (src/vars.c lines 178-302) -/

/-- Paren matching for `$(...)`: index of the character that brings the
depth (starting at 1) to 0. -/
def matchParenAux : Nat → Nat → List Char → Option Nat
  | _, _, [] => none
  | depth, i, c :: rest =>
    let d2 := if c = '(' then depth + 1 else if c = ')' then depth - 1 else depth
    if d2 = 0 then some i else matchParenAux d2 (i + 1) rest

def backTick : Char := Char.ofNat 96

/-- The `$(command)` replacement loop; `none` on an unmatched `$(` or a
failed capture.  The C loop has no iteration bound (output containing `$(`
is rescanned); the fuel is generous for the runs considered. -/
def cmdSubstDollarLoop (env : OsEnv) : Nat → List Char → Option (List Char)
  | 0, r => some r
  | fuel + 1, r =>
    match substrIdx r ['$', '('] with
    | none => some r
    | some i =>
      let after := r.drop (i + 2)
      match matchParenAux 1 0 after with
      | none => none
      | some j =>
        match env.subshellRes ⟨after.take j⟩ with
        | none => none
        | some out =>
          cmdSubstDollarLoop env fuel (r.take i ++ out.data ++ after.drop (j + 1))

/-- The backtick replacement loop; `none` on an unmatched backtick or a
failed capture. -/
def cmdSubstBacktickLoop (env : OsEnv) : Nat → List Char → Option (List Char)
  | 0, r => some r
  | fuel + 1, r =>
    match findIdxA (fun c => c = backTick) r with
    | none => some r
    | some i =>
      let after := r.drop (i + 1)
      match findIdxA (fun c => c = backTick) after with
      | none => none
      | some j =>
        match env.subshellRes ⟨after.take j⟩ with
        | none => none
        | some out =>
          cmdSubstBacktickLoop env fuel (r.take i ++ out.data ++ after.drop (j + 1))

/-- `expand_cmd_subst`: `none` when the word has no construct at all or when
a substitution fails; otherwise the fully substituted word. -/
def expandCmdSubst (env : OsEnv) (arg : String) : Option String :=
  if (substrIdx arg.data ['$', '(']).isNone &&
     (findIdxA (fun c => c = backTick) arg.data).isNone then none
  else
    match cmdSubstDollarLoop env 64 arg.data with
    | none => none
    | some r1 =>
      match cmdSubstBacktickLoop env 64 r1 with
      | none => none
      | some r2 => some ⟨r2⟩

/-! ## Variable expansion (src/vars.c lines 304-383) -/

/-- The embedded `prefix$NAMEsuffix` loop.  Only the first 63 characters of
the identifier are used for the lookup, but the whole identifier is
replaced; an undefined variable becomes the empty string.  The loop stops
at a `$(`.  (On a `$` followed by no identifier character the C code
`continue`s without progress, i.e. spins forever; the model stops there
instead.) -/
def expandVarsEmbedLoop (vars : VarStore) : Nat → List Char → List Char
  | 0, r => r
  | fuel + 1, r =>
    match findIdxA (fun c => c = '$') r with
    | none => r
    | some d =>
      if (r.drop (d + 1)).head? = some '(' then r
      else
        let after := r.drop (d + 1)
        let nm := after.takeWhile cIsVarCharB
        if nm.length = 0 then r
        else
          let value := (getVar vars ⟨nm.take 63⟩).getD ""
          expandVarsEmbedLoop vars fuel (r.take d ++ value.data ++ after.drop nm.length)

/-- Per-word `expand_vars` body: command substitution, then arithmetic
expansion, then variable expansion. -/
def expandVarsWord (env : OsEnv) (vars : VarStore) (w : String) : String :=
  let w1 := match expandCmdSubst env w with
    | some r => r
    | none => w
  let w2 := match expandArithSubst vars w1 with
    | some r => r
    | none => w1
  if w2.data.contains '$' && w2.data.head? ≠ some '$' then
    ⟨expandVarsEmbedLoop vars 64 w2.data⟩
  else if w2.data.head? = some '$' && (w2.data.drop 1).head? ≠ some '(' then
    (getVar vars ⟨w2.data.drop 1⟩).getD ""
  else w2

def expandVarsArgs (env : OsEnv) (vars : VarStore) (args : List String) :
    List String :=
  args.map (expandVarsWord env vars)

/-- `expand_globs` (src/globbing.c lines 18-108): words with glob characters
are replaced by their matches in place; no match (or a glob error) keeps
the literal word. -/
def expandGlobs (env : OsEnv) (args : List String) : List String :=
  args.flatMap (fun a =>
    if containsGlobChars a then
      match env.glob a with
      | some l => l
      | none => [a]
    else [a])

/-! ## fnmatch(3) model (used by the `case` statement, src/parser.c 438) -/

def classMatch (neg : Bool) (items : List (Char × Char)) (c : Char) : Bool :=
  let inC := items.any (fun p => p.1 ≤ c && c ≤ p.2)
  if neg then !inC else inC

def parseBracketItems : List Char → Bool → List (Char × Char) →
    Option (List (Char × Char) × List Char)
  | [], _, _ => none
  | ']' :: rest, first, acc =>
    if first then parseBracketItems rest false (acc ++ [(']', ']')])
    else some (acc, rest)
  | a :: '-' :: b :: rest, _, acc =>
    if b = ']' then some (acc ++ [(a, a), ('-', '-')], rest)
    else parseBracketItems rest false (acc ++ [(a, b)])
  | a :: rest, _, acc => parseBracketItems rest false (acc ++ [(a, a)])

def globMatchF : Nat → List Char → List Char → Bool
  | 0, _, _ => false
  | _ + 1, [], [] => true
  | _ + 1, [], _ :: _ => false
  | f + 1, '*' :: p, s =>
    globMatchF f p s ||
      (match s with
       | [] => false
       | _ :: s2 => globMatchF f ('*' :: p) s2)
  | f + 1, '?' :: p, s =>
    match s with
    | [] => false
    | _ :: s2 => globMatchF f p s2
  | f + 1, '[' :: p, s =>
    let negp : Bool × List Char :=
      match p with
      | '!' :: q => (true, q)
      | '^' :: q => (true, q)
      | _ => (false, p)
    (match parseBracketItems negp.2 true [] with
     | none =>
       match s with
       | [] => false
       | d :: s2 => '[' = d && globMatchF f p s2
     | some (items, p2) =>
       match s with
       | [] => false
       | d :: s2 => classMatch negp.1 items d && globMatchF f p2 s2)
  | f + 1, c :: p, s =>
    match s with
    | [] => false
    | d :: s2 => c = d && globMatchF f p s2

/-- Core fnmatch(3) semantics on the `* ? [...]` pattern language. -/
def fnmatchModel (pat str : String) : Bool :=
  globMatchF (2 * (pat.data.length + str.data.length) + 4) pat.data str.data

/-! ## Builtin helpers (src/builtins.c, src/shell.c lines 276-345) -/

/-- Split at the first `=` (`strchr`). -/
def splitFirstEq (a : String) : Option (String × String) :=
  match findIdxA (fun c => c = '=') a.data with
  | none => none
  | some i => some (⟨a.data.take i⟩, ⟨a.data.drop (i + 1)⟩)

/-- `NAME=VALUE` shape: a `=` that is not the first character
(src/shell.c lines 961-967). -/
def hasAssignShape (a : String) : Bool :=
  match findIdxA (fun c => c = '=') a.data with
  | none => false
  | some i => decide (0 < i)

/-- The assignment branch of `parse_and_execute` (src/shell.c lines
968-976): each token is split at its first `=` and stored. -/
def applyAssigns (st : St) (args : List String) : St :=
  { st with vars := args.foldl (fun vs a =>
      match splitFirstEq a with
      | some (n, v) => setVar vs n v
      | none => vs) st.vars }

/-- Quote stripping of the `alias` builtin (src/builtins.c lines 114-120). -/
def stripSurroundingQuotes (v : String) : String :=
  let l := v.data
  if 2 ≤ l.length &&
     ((l.head? = some '"' && l.getLast? = some '"') ||
      (l.head? = some '\'' && l.getLast? = some '\'')) then
    ⟨(l.drop 1).dropLast⟩
  else v

/-- The argument loop of the `alias` builtin (src/builtins.c lines 94-131).
`N=` with nothing after the `=` takes the space-joined remaining arguments
as the value and stops the loop. -/
def aliasBuiltinLoop : St → List String → St
  | st, [] => st
  | st, a :: rest =>
    match splitFirstEq a with
    | none => aliasBuiltinLoop st rest
    | some (name, afterEq) =>
      if afterEq = "" then
        let v := stripSurroundingQuotes (joinSpace rest)
        { st with aliases := setAliasL st.aliases name v }
      else
        let v := stripSurroundingQuotes afterEq
        aliasBuiltinLoop { st with aliases := setAliasL st.aliases name v } rest

/-- The argument loop of the `export` builtin (src/builtins.c lines 61-71).
`NAME=VAL` sets and exports; a bare `NAME` exports an existing variable and
flags an undefined one (the flag is overwritten to 0 after the loop). -/
def exportLoop : St → List String → St
  | st, [] => st
  | st, a :: rest =>
    match splitFirstEq a with
    | some (n, v) =>
      if n ≠ "" then
        exportLoop
          { st with vars := setVar st.vars n v, penv := penvSet st.penv n v } rest
      else
        match getVar st.vars a with
        | some v0 => exportLoop { st with penv := penvSet st.penv a v0 } rest
        | none => exportLoop { st with lastStatus := 1 } rest
    | none =>
      match getVar st.vars a with
      | some v0 => exportLoop { st with penv := penvSet st.penv a v0 } rest
      | none => exportLoop { st with lastStatus := 1 } rest

/-- `mark_job_as_running` plus `put_job_in_foreground` /
`put_job_in_background` as invoked from `continue_job` (src/shell.c lines
444-535).  The foreground path waits; the job's `running` flag after the
wait comes from the oracle (false unless waitpid itself failed). -/
def continueJobModel (env : OsEnv) (j : JobRec) (fg : Bool) : JobRec :=
  let j1 := { j with running := true, notified := false }
  if fg then { j1 with foreground := true, running := env.fgWaitRunning j1.pgid }
  else { j1 with foreground := false }

/-- The `fg`/`bg` builtins (src/shell.c lines 301-342): missing argument or
unknown job id set `last_status` to 1; a found job is continued (its
success path leaves `last_status` alone). -/
def fgBgRun (env : OsEnv) (st : St) (rest : List String) (fg : Bool) : St :=
  match rest.head? with
  | none => { st with lastStatus := 1 }
  | some idStr =>
    let id := cAtoi idStr.data
    match findIdxA (fun j => j.jobId = id) st.jobs.slots with
    | none => { st with lastStatus := 1 }
    | some i =>
      match st.jobs.slots.get? i with
      | none => st
      | some j =>
        { st with jobs :=
            { st.jobs with slots := st.jobs.slots.set i (continueJobModel env j fg) } }

/-- The names `execute_builtin` accepts (handle_simple_builtin's cases plus
history/jobs/fg/bg); used by the pipeline child model. -/
def isBuiltinName (s : String) : Bool :=
  s = "cd" || s = "exit" || s = "source" || s = "export" || s = "let" ||
  s = "alias" || s = "unalias" || s = "history" || s = "jobs" ||
  s = "fg" || s = "bg"

/-- Non-interactive `execute_command` (src/shell.c lines 350-439 with
`shell_is_interactive == 0`): the child applies redirections and execs
(ghost-logged with its pre-redirection argv); the parent waits and maps any
nonzero wait status to `last_status = 1`.  The background flag is ignored
on this branch. -/
def executeCommandNI (env : OsEnv) (st : St) (args : List String)
    (background : Bool) : St :=
  let _ := background
  { st with executed := st.executed ++ [args],
            lastStatus := if env.extStatus args ≠ 0 then 1 else 0 }

/-- What a pipeline stage's child execs (src/shell.c lines 824-841): its
segment is tokenized and alias-expanded in the child; builtins (and empty
argvs) run in the child and exit without exec. -/
def pipelineChildExec (al : AliasStore) (seg : String) : Option (List String) :=
  match splitCommandLine seg with
  | [] => none
  | a :: rest =>
    match expandAliases al (a :: rest) with
    | [] => none
    | b :: rest2 => if isBuiltinName b then none else some (b :: rest2)

/-- Non-interactive `execute_pipeline` (src/shell.c lines 755-867): every
stage is forked, the parent waits for them all; `last_status` is not
updated on this path. -/
def executePipelineNI (env : OsEnv) (st : St) (segs : List String)
    (background : Bool) : St :=
  let _ := env
  let _ := background
  { st with executed := st.executed ++ segs.filterMap (pipelineChildExec st.aliases) }

/-! ## Line collection and scanners of src/parser.c -/

/-- `parse_stream`'s reading phase (src/parser.c lines 119-141): lines are
read, split on `;` (quoting is not honoured), trimmed of spaces/tabs, blank
segments dropped, and at most MAX_LINES (512) kept. -/
def scriptLines (text : String) : List String :=
  (((strSplit text (fun c => c = '\n')).flatMap (fun line =>
      (strSplit line (fun c => c = ';')).map shTrim)).filter
    (fun s => s ≠ "")).take 512

/-- Join condition lines until a line equal to `stop` (the multi-line
condition paths of `if` and `while`, src/parser.c lines 156-163 and
220-226); returns the joined text and the index of the `stop` line (or the
first out-of-range index). -/
def joinUntil (lines : List String) (stop : String) :
    Nat → Nat → String → String × Nat
  | 0, j, acc => (acc, j)
  | f + 1, j, acc =>
    match lines.get? j with
    | none => (acc, j)
    | some lj =>
      if lj = stop then (acc, j)
      else joinUntil lines stop f (j + 1) (acc ++ " " ++ lj)

/-- The `fi`/`else` scan of the `if` branch (src/parser.c lines 166-181):
any line starting with "if" deepens the nesting; `else` at depth 0 is
remembered (the last one wins). -/
def scanIfCloserAux (lines : List String) :
    Nat → Nat → Nat → Option Nat → Option Nat × Option Nat
  | 0, _, _, elseL => (elseL, none)
  | f + 1, j, nested, elseL =>
    match lines.get? j with
    | none => (elseL, none)
    | some lj =>
      let nested1 := if strStartsWith lj "if" then nested + 1 else nested
      if lj = "fi" then
        if nested1 = 0 then (elseL, some j)
        else scanIfCloserAux lines f (j + 1) (nested1 - 1) elseL
      else if lj = "else" && nested1 = 0 then
        scanIfCloserAux lines f (j + 1) nested1 (some j)
      else scanIfCloserAux lines f (j + 1) nested1 elseL

/-- The `done` scans of `while` and `for` (src/parser.c lines 237-248 and
343-354): lines starting with the opener keyword deepen the nesting. -/
def scanCloserAux (lines : List String) (opener closer : String) :
    Nat → Nat → Nat → Option Nat
  | 0, _, _ => none
  | f + 1, j, nested =>
    match lines.get? j with
    | none => none
    | some lj =>
      let nested1 := if strStartsWith lj opener then nested + 1 else nested
      if lj = closer then
        if nested1 = 0 then some j
        else scanCloserAux lines opener closer f (j + 1) (nested1 - 1)
      else scanCloserAux lines opener closer f (j + 1) nested1

/-- The brace scan of a function definition (src/parser.c lines 452-458):
a line containing `{` deepens, one containing `}` shallows; returns the
index one past the closing line. -/
def scanBracesAux (lines : List String) : Nat → Nat → Nat → Option Nat
  | 0, _, _ => none
  | f + 1, j, depth =>
    if depth = 0 then some j
    else
      match lines.get? j with
      | none => none
      | some lj =>
        let d1 := if lj.data.contains '{' then depth + 1 else depth
        let d2 := if lj.data.contains '}' then d1 - 1 else d1
        scanBracesAux lines f (j + 1) d2

/-- `store_function` (src/parser.c lines 84-103): an empty body occupies no
visible slot; an existing name is overwritten; MAX_FUNCS is 32. -/
def storeFunction (fs : List (String × List String)) (name : String)
    (body : List String) : List (String × List String) :=
  if body = [] then fs
  else if (fs.find? (fun p => p.1 == name)).isSome then
    fs.map (fun p => if p.1 == name then (p.1, body) else p)
  else if fs.length < 32 then fs ++ [(strTake name 63, body)]
  else fs

/-- The `for` header tokenizer (src/parser.c lines 310-338): `strtok` walks
to "for", the variable name and "in"; the raw remainder (one delimiter
consumed) is cut at its first " do" and `strncpy`-bounded. -/
def forHeaderParse (header : String) : Option (String × String) :=
  let h1 := header.data.dropWhile isSpTabB
  let t0 := h1.takeWhile (fun c => !isSpTabB c)
  if ¬(t0 = ['f', 'o', 'r']) then none
  else
    let r0 := (h1.drop t0.length).dropWhile isSpTabB
    let t1 := r0.takeWhile (fun c => !isSpTabB c)
    if t1 = [] then none
    else
      let varname : String := ⟨t1.take 63⟩
      let r1 := (r0.drop t1.length).dropWhile isSpTabB
      let t2 := r1.takeWhile (fun c => !isSpTabB c)
      if ¬(t2 = ['i', 'n']) then none
      else
        let r2 := r1.drop t2.length
        let rest := r2.drop 1
        let cut := match substrIdx rest [' ', 'd', 'o'] with
          | some k => rest.take k
          | none => rest
        some (varname, ⟨cut.take 1023⟩)

/-- The `for` header collection loop (src/parser.c lines 285-293): lines are
appended (space-joined) until the accumulated header contains " do" or the
current line is exactly "do". -/
def forHeaderCollect (lines : List String) : Nat → Nat → String → String × Nat
  | 0, he, header => (header, he)
  | f + 1, he, header =>
    if (substrIdx header.data [' ', 'd', 'o']).isSome || lines.get? he = some "do"
    then (header, he)
    else
      let he1 := he + 1
      match lines.get? he1 with
      | none => (header, he1)
      | some lj => forHeaderCollect lines f he1 (header ++ " " ++ lj)

/-- First line equal to `target`, scanning from index `j` (the `esac` scan,
src/parser.c lines 415-417). -/
def findLineIdx (lines : List String) (target : String) : Nat → Nat → Option Nat
  | 0, _ => none
  | f + 1, j =>
    match lines.get? j with
    | none => none
    | some lj => if lj = target then some j else findLineIdx lines target f (j + 1)

/-- `strtok(..., " \t")`: the nonempty fields. -/
def strtokSplit (s : String) : List String :=
  (strSplit s isSpTabB).filter (fun x => x ≠ "")

/-! ## The evaluator (src/shell.c `parse_and_execute`, `execute_builtin`;
src/builtins.c `handle_simple_builtin`; src/parser.c `parse_stream`,
`exec_block` and the loop bodies)

These functions are mutually recursive through `source` (a builtin that
re-enters the stream parser) and the control-flow constructs; the shared
fuel only bounds the recursion depth — where the C code loops forever (every
`while` condition is "true" because `parse_and_execute` returns 0 on all
paths) the model stops when the fuel is exhausted.  After the `exit` builtin
the process is gone, which every loop head observes via `st.exited`. -/

mutual

/-- `parse_and_execute` (src/shell.c lines 897-982).  Returns the new state
and the function's return value (not `last_status`!). -/
def parseAndExecute (env : OsEnv) : Nat → St → String → St × Int
  | 0, st, _ => (st, 0)
  | fuel + 1, st, input =>
    if st.exited then (st, 0)
    else if input = "" then (st, 0)
    else
      let t := shTrim input
      match findLogicOp t with
      | some (i, isAnd) =>
        let left := shTrim ⟨t.data.take i⟩
        let right := shTrim ⟨t.data.drop (i + 2)⟩
        let (st1, sl) := parseAndExecute env fuel st left
        if (if isAnd then sl = 0 else sl ≠ 0) then
          let (st2, sr) := parseAndExecute env fuel st1 right
          ({ st2 with lastStatus := sr }, sr)
        else ({ st1 with lastStatus := sl }, sl)
      | none =>
        let tb := stripBackground t
        let segs := splitPipeline tb.1
        if 1 < segs.length then (executePipelineNI env st segs tb.2, 0)
        else
          match splitCommandLine (segs.headD "") with
          | [] => (st, 0)
          | a :: rest =>
            runSimpleTail env fuel st (expandAliases st.aliases (a :: rest)) tb.2

termination_by structural fuel _ _ => fuel

/-- The tail of the single-command path of `parse_and_execute`
(src/shell.c lines 955-981), from the builtin dispatch on the alias-expanded
argv onwards. -/
def runSimpleTail (env : OsEnv) : Nat → St → List String → Bool → St × Int
  | 0, st, _, _ => (st, 0)
  | fuel + 1, st, args, background =>
    match executeBuiltin env fuel st args with
    | some st1 => (st1, 0)
    | none =>
      if args.all hasAssignShape then (applyAssigns st args, 0)
      else
        let args2 := expandGlobs env (expandVarsArgs env st.vars args)
        (executeCommandNI env st args2 background, 0)

termination_by structural fuel _ _ _ => fuel

/-- `execute_builtin` (src/shell.c lines 276-345): `none` means "not a
builtin, go exec". -/
def executeBuiltin (env : OsEnv) : Nat → St → List String → Option St
  | 0, _, _ => none
  | fuel + 1, st, args =>
    match args with
    | [] => some st
    | a0 :: rest =>
      match handleSimpleBuiltin env fuel st args with
      | some st1 => some st1
      | none =>
        if a0 = "history" then some { st with lastStatus := 0 }
        else if a0 = "jobs" then some { st with lastStatus := 0 }
        else if a0 = "fg" then some (fgBgRun env st rest true)
        else if a0 = "bg" then some (fgBgRun env st rest false)
        else none

termination_by structural fuel _ _ => fuel

/-- `handle_simple_builtin` (src/builtins.c lines 13-149). -/
def handleSimpleBuiltin (env : OsEnv) : Nat → St → List String → Option St
  | 0, _, _ => none
  | fuel + 1, st, args =>
    match args with
    | [] => none
    | a0 :: rest =>
      if a0 = "cd" then
        some (match rest.head?.orElse (fun _ => penvGet st.penv "HOME") with
          | none => { st with lastStatus := 1 }
          | some d =>
            if env.chdirOk d then { st with lastStatus := 0 }
            else { st with lastStatus := 1 })
      else if a0 = "exit" then some { st with exited := true }
      else if a0 = "source" then
        some (match rest.head? with
          | none => { st with lastStatus := 1 }
          | some f =>
            match env.fileText f with
            | none => { st with lastStatus := 1 }
            | some text => { parseStream env fuel st text with lastStatus := 0 })
      else if a0 = "export" then
        some (match rest.head? with
          | none => { st with lastStatus := 1 }
          | some _ => { exportLoop st rest with lastStatus := 0 })
      else if a0 = "let" then
        let res := rest.foldl (fun _ a => (evalArith st.vars a).1) (0 : Int)
        some { st with lastStatus := if res = 0 then 1 else 0 }
      else if a0 = "alias" then
        some (match rest.head? with
          | none => { st with lastStatus := 0 }
          | some _ => { aliasBuiltinLoop st rest with lastStatus := 0 })
      else if a0 = "unalias" then
        some (match rest.head? with
          | none => { st with lastStatus := 1 }
          | some _ =>
            { st with aliases := rest.foldl unsetAliasL st.aliases,
                      lastStatus := 0 })
      else none

termination_by structural fuel _ _ => fuel

/-- `parse_stream` (src/parser.c lines 119-479). -/
def parseStream (env : OsEnv) : Nat → St → String → St
  | 0, st, _ => st
  | fuel + 1, st, text => parseStreamLoop env fuel st (scriptLines text) 0

termination_by structural fuel _ _ => fuel

/-- The dispatch loop of `parse_stream` (src/parser.c lines 143-475); on a
malformed construct it prints a diagnostic and `break`s, i.e. stops. -/
def parseStreamLoop (env : OsEnv) : Nat → St → List String → Nat → St
  | 0, st, _, _ => st
  | fuel + 1, st, lines, i =>
    if st.exited then st
    else
      match lines.get? i with
      | none => st
      | some li =>
        if strStartsWith li "if " || li = "if" then
          let condThen : String × Nat :=
            match substrIdx li.data ['t', 'h', 'e', 'n'] with
            | some p => (⟨(li.data.drop 3).take (p - 1)⟩, i)
            | none => joinUntil lines "then" (lines.length + 1) (i + 1) ⟨li.data.drop 3⟩
          let scanned := scanIfCloserAux lines (lines.length + 1) (condThen.2 + 1) 0 none
          match scanned.2 with
          | none => st
          | some fi =>
            let (st1, rc) := parseAndExecute env fuel st condThen.1
            let st2 :=
              if rc = 0 then
                execBlockIdx env fuel st1 lines (condThen.2 + 1) (scanned.1.getD fi)
              else
                match scanned.1 with
                | some e => execBlockIdx env fuel st1 lines (e + 1) fi
                | none => st1
            parseStreamLoop env fuel st2 lines (fi + 1)
        else if strStartsWith li "while " || li = "while" then
          let sameLine : Option Nat :=
            match substrIdx li.data ['d', 'o'] with
            | some k =>
              if k = 0 || li.data.get? (k - 1) = some ' ' then some k else none
            | none => none
          let condDo : String × Nat :=
            match sameLine with
            | some k => (⟨(li.data.drop 6).take (k - 6)⟩, i)
            | none => joinUntil lines "do" (lines.length + 1) (i + 1) ⟨li.data.drop 6⟩
          if lines.get? condDo.2 ≠ some "do" then st
          else
            match scanCloserAux lines "while" "done" (lines.length + 1) (condDo.2 + 1) 0 with
            | none => st
            | some dn =>
              let st1 := whileLoopM env fuel st condDo.1 lines (condDo.2 + 1) dn
              parseStreamLoop env fuel st1 lines (dn + 1)
        else if strStartsWith li "for " || li = "for" then
          let hh := forHeaderCollect lines (lines.length + 1) i li
          if (substrIdx hh.1.data [' ', 'd', 'o']).isNone &&
             lines.get? hh.2 ≠ some "do" then st
          else
            match forHeaderParse hh.1 with
            | none => st
            | some (varname, itemlist) =>
              match scanCloserAux lines "for" "done" (lines.length + 1) (hh.2 + 1) 0 with
              | none => st
              | some dn =>
                let st1 :=
                  if itemlist = "" then st
                  else forItemsM env fuel st varname (strtokSplit itemlist)
                         lines (hh.2 + 1) dn
                parseStreamLoop env fuel st1 lines (dn + 1)
        else if strStartsWith li "case " then
          match substrIdx (li.data.drop 5) [' ', 'i', 'n'] with
          | none => st
          | some w =>
            let word : String := ⟨(li.data.drop 5).take w⟩
            match findLineIdx lines "esac" (lines.length + 1) (i + 1) with
            | none => st
            | some es =>
              let st1 := caseArmsM env fuel st word lines (i + 1) es
              parseStreamLoop env fuel st1 lines (es + 1)
        else if (substrIdx li.data ['(', ')']).isSome && li.data.contains '{' &&
                !(li.data.contains ' ') then
          let fname : String :=
            ⟨(li.data.takeWhile (fun c => c ≠ '(' && c ≠ ')' && c ≠ ' ')).take 63⟩
          match scanBracesAux lines (lines.length + 1) (i + 1) 1 with
          | none => st
          | some j =>
            let body := (lines.drop (i + 1)).take (j - 1 - (i + 1))
            parseStreamLoop env fuel
              { st with funcs := storeFunction st.funcs fname body } lines j
        else if li = "" then parseStreamLoop env fuel st lines (i + 1)
        else
          let (st1, _) := parseAndExecute env fuel st li
          parseStreamLoop env fuel st1 lines (i + 1)

termination_by structural fuel _ _ _ => fuel

/-- `exec_block` (src/parser.c lines 39-56) on the index range `[k, stop)`:
`break`/`continue` set the loop flag and stop; a flag raised anywhere below
also stops the block. -/
def execBlockIdx (env : OsEnv) : Nat → St → List String → Nat → Nat → St
  | 0, st, _, _, _ => st
  | fuel + 1, st, lines, k, stop =>
    if st.exited then st
    else if stop ≤ k then st
    else
      match lines.get? k with
      | none => st
      | some lk =>
        let lt := psTrim lk
        if lt = "break" then { st with loopFlag := 1 }
        else if lt = "continue" then { st with loopFlag := 2 }
        else
          let (st1, _) := parseAndExecute env fuel st lt
          if st1.loopFlag ≠ 0 then st1
          else execBlockIdx env fuel st1 lines (k + 1) stop

termination_by structural fuel _ _ _ _ => fuel

/-- The `while` execution loop (src/parser.c lines 256-263): re-evaluate the
condition, reset the loop flag, run the body; `break` leaves, `continue`
re-evaluates. -/
def whileLoopM (env : OsEnv) : Nat → St → String → List String → Nat → Nat → St
  | 0, st, _, _, _, _ => st
  | fuel + 1, st, cond, lines, bs, be =>
    if st.exited then st
    else
      let (st1, rc) := parseAndExecute env fuel st cond
      if rc = 0 then
        let st2 := execBlockIdx env fuel { st1 with loopFlag := 0 } lines bs be
        if st2.loopFlag = 1 then st2
        else whileLoopM env fuel st2 cond lines bs be
      else st1

termination_by structural fuel _ _ _ _ _ => fuel

/-- The `for` iteration (src/parser.c lines 366-387): one trailing `;` is
stripped from each item, the variable is set, the flag reset, the body run. -/
def forItemsM (env : OsEnv) :
    Nat → St → String → List String → List String → Nat → Nat → St
  | 0, st, _, _, _, _, _ => st
  | fuel + 1, st, vn, items, lines, bs, be =>
    match items with
    | [] => st
    | it :: rest =>
      if st.exited then st
      else
        let it2 : String :=
          if it.data.getLast? = some ';' then ⟨it.data.dropLast⟩ else it
        let st1 := { st with vars := setVar st.vars vn it2, loopFlag := 0 }
        let st2 := execBlockIdx env fuel st1 lines bs be
        if st2.loopFlag = 1 then st2
        else forItemsM env fuel st2 vn rest lines bs be

termination_by structural fuel _ _ _ _ _ _ => fuel

/-- The `case` arm scan (src/parser.c lines 424-442): the first arm whose
pattern fnmatch-es the word runs its command (with the trailing `;;`
stripped); later arms are skipped. -/
def caseArmsM (env : OsEnv) : Nat → St → String → List String → Nat → Nat → St
  | 0, st, _, _, _, _ => st
  | fuel + 1, st, w, lines, k, stop =>
    if st.exited then st
    else if stop ≤ k then st
    else
      match lines.get? k with
      | none => st
      | some lk =>
        match findIdxA (fun c => c = ')') lk.data with
        | none => caseArmsM env fuel st w lines (k + 1) stop
        | some p =>
          let pat := psTrim ⟨lk.data.take p⟩
          let cmd0 := psTrim ⟨lk.data.drop (p + 1)⟩
          let cmd : String :=
            if 2 ≤ cmd0.data.length && cmd0.data.getLast? = some ';' &&
               cmd0.data.dropLast.getLast? = some ';' then
              ⟨cmd0.data.dropLast.dropLast⟩
            else cmd0
          if fnmatchModel pat w then (parseAndExecute env fuel st cmd).1
          else caseArmsM env fuel st w lines (k + 1) stop

termination_by structural fuel _ _ _ _ _ => fuel

end

/-! ## Entry points of main (src/shell.c lines 113-194) -/

def stInit (penv : List (String × String)) : St :=
  { vars := [], aliases := [], funcs := [], penv := penv, jobs := jobsInit,
    lastStatus := 0, exited := false, loopFlag := 0, executed := [] }

/-- The `-c` branch of main (src/shell.c lines 120-145): semicolons become
newlines, a newline is appended, the stream is parsed, and main returns 0
(the `exit` builtin would likewise end the process with EXIT_SUCCESS = 0). -/
def mainOptC (env : OsEnv) (penv : List (String × String)) (cmd : String)
    (fuel : Nat) : St × Int :=
  let script : String :=
    ⟨(cmd.data.map (fun c => if c = ';' then '\n' else c)) ++ ['\n']⟩
  (parseStream env fuel (stInit penv) script, 0)

/-- `ash -c` with no argument (src/shell.c lines 121-124): exit code 1. -/
def mainOptCMissingArg : Int := 1

/-- The script branch of main (src/shell.c lines 148-165): a file that
cannot be opened exits 1; otherwise argv[2..] become `$1..`, the stream is
parsed, and main returns 0. -/
def mainScriptMode (env : OsEnv) (penv : List (String × String))
    (file : String) (args : List String) (fuel : Nat) : St × Int :=
  match env.fileText file with
  | none => (stInit penv, 1)
  | some text =>
    let st0 := stInit penv
    let vars1 := args.enum.foldl
      (fun vs p => setVar vs (natToString (p.1 + 1)) p.2) st0.vars
    (parseStream env fuel { st0 with vars := vars1 } text, 0)

/-! ## Concrete environments used by witnesses and counterexamples -/

/-- An environment where the external command `false` exits 1 and everything
else succeeds with empty output. -/
def envFalse : OsEnv :=
  { extStatus := fun args => if args = ["false"] then 1 else 0,
    subshellRes := fun _ => some "",
    glob := fun _ => none,
    chdirOk := fun _ => true,
    fileText := fun _ => none,
    fgWaitRunning := fun _ => false }

/-- An environment whose `capture_command_output` fails (pipe/fork failure),
so command substitution is abandoned. -/
def envNoCap : OsEnv :=
  { envFalse with subshellRes := fun _ => none }

/-! # Theorems -/


/-! ## Shared lemmas -/

theorem aliasIter_stall (al : AliasStore) (args : List String)
    (h : aliasStep al args = none) :
    ∀ n, (fun a => (aliasStep al a).getD a)^[n] args = args := by
  intro n
  induction n with
  | zero => rfl
  | succ n ih =>
    rw [Function.iterate_succ_apply]
    simp only [h, Option.getD_none]
    exact ih

theorem expandAliasesAux_iterate (al : AliasStore) :
    ∀ (n : Nat) (args : List String), ∃ k ≤ n,
      expandAliasesAux al n args = (fun a => (aliasStep al a).getD a)^[k] args ∧
      (k = n ∨ aliasStep al (expandAliasesAux al n args) = none) := by
  intro n
  induction n with
  | zero => exact fun args => ⟨0, Nat.le_refl 0, rfl, Or.inl rfl⟩
  | succ n ih =>
    intro args
    cases hstep : aliasStep al args with
    | none =>
      refine ⟨0, Nat.zero_le _, ?_, Or.inr ?_⟩
      · simp [expandAliasesAux, hstep]
      · simp [expandAliasesAux, hstep]
    | some b =>
      obtain ⟨k, hk, heq, hor⟩ := ih b
      have haux : expandAliasesAux al (n + 1) args = expandAliasesAux al n b := by
        simp [expandAliasesAux, hstep]
      refine ⟨k + 1, Nat.succ_le_succ hk, ?_, ?_⟩
      · rw [haux, heq, Function.iterate_succ_apply]
        simp [hstep]
      · rcases hor with h | h
        · exact Or.inl (by omega)
        · exact Or.inr (by rw [haux]; exact h)

theorem runSimpleTail_ret (env : OsEnv) (fuel : Nat) (st : St)
    (args : List String) (bg : Bool) : (runSimpleTail env fuel st args bg).2 = 0 := by
  cases fuel with
  | zero => rfl
  | succ f =>
    simp only [runSimpleTail]
    cases h : executeBuiltin env f st args with
    | some st1 => rfl
    | none =>
      repeat' split
      all_goals rfl

theorem parseAndExecute_ret (env : OsEnv) :
    ∀ (fuel : Nat) (st : St) (input : String),
      (parseAndExecute env fuel st input).2 = 0 := by
  intro fuel
  induction fuel with
  | zero => intro st input; rfl
  | succ f ih =>
    intro st input
    simp only [parseAndExecute]
    repeat' split
    all_goals
      first
      | rfl
      | exact runSimpleTail_ret env f _ _ _
      | exact ih _ _

/-! ## C5 -/

/-- C5: alias expansion performs at most 10 first-word substitutions (for any
alias table, cyclic ones included) and stops early exactly when no alias
applies any more; each substitution replaces only the first word by the
tokenization of its alias value, keeping the remaining arguments in order. -/
theorem alias_expansion_bounded (al : AliasStore) (args : List String) :
    (∃ k ≤ 10,
       expandAliases al args = (fun a => (aliasStep al a).getD a)^[k] args ∧
       (k = 10 ∨ aliasStep al (expandAliases al args) = none)) ∧
    (∀ w rest v, getAliasL al w = some v → splitCommandLine v ≠ [] →
       aliasStep al (w :: rest) = some (splitCommandLine v ++ rest)) ∧
    (∀ w rest, getAliasL al w = none → aliasStep al (w :: rest) = none) := by
  refine ⟨expandAliasesAux_iterate al 10 args, ?_, ?_⟩
  · intro w rest v hv hne
    simp [aliasStep, hv, hne]
  · intro w rest hv
    simp [aliasStep, hv]

theorem alias_expansion_bounded_witness :
    aliasStep [("ll", "ls -l")] ["ll", "/tmp"] = some ["ls", "-l", "/tmp"] := by
  have h := (alias_expansion_bounded [("ll", "ls -l")] ["ll", "/tmp"]).2.1
    "ll" ["/tmp"] "ls -l" (by decide) (by decide)
  rw [h]
  decide

/-! ## C9 -/

theorem foldl_apply_last {α β : Type} (g : α → β) (init : β) :
    ∀ (l : List α) (h : l ≠ []), l.foldl (fun _ a => g a) init = g (l.getLast h) := by
  intro l
  induction l generalizing init with
  | nil => intro h; exact absurd rfl h
  | cons a tl ih =>
    intro h
    cases tl with
    | nil => rfl
    | cons b tl2 =>
      rw [List.foldl_cons, ih (g a) (List.cons_ne_nil b tl2)]
      congr 1

/-- C9: after `let EXPR...`, `last_status` is 0 iff the value of the final
expression is nonzero (the builtin folds `eval_arith` over its arguments and
keeps only the last result). -/
theorem let_status (env : OsEnv) (fuel : Nat) (st : St) (args : List String)
    (h : args ≠ []) :
    handleSimpleBuiltin env (fuel + 1) st ("let" :: args) =
      some { st with lastStatus :=
        if (evalArith st.vars (args.getLast h)).1 = 0 then 1 else 0 } ∧
    (({ st with lastStatus :=
         if (evalArith st.vars (args.getLast h)).1 = 0 then 1 else 0 } : St).lastStatus = 0 ↔
      (evalArith st.vars (args.getLast h)).1 ≠ 0) := by
  constructor
  · simp only [handleSimpleBuiltin]
    rw [if_neg (show ¬(("let" : String) = "cd") from by decide),
        if_neg (show ¬(("let" : String) = "exit") from by decide),
        if_neg (show ¬(("let" : String) = "source") from by decide),
        if_neg (show ¬(("let" : String) = "export") from by decide)]
    simp only [if_true]
    rw [foldl_apply_last (fun a => (evalArith st.vars a).1) 0 args h]
  · simp only []
    split
    · simp_all
    · simp_all

theorem let_status_witness :
    handleSimpleBuiltin envFalse 10 (stInit []) ["let", "2+3"] =
      some { stInit [] with lastStatus := 0 } := by
  have h := (let_status envFalse 9 (stInit []) ["2+3"] (by decide)).1
  rw [h]
  decide

/-! ## C1 -/

/-- C1 counterexample: `ash -c "false"` leaves `last_status = 1` but the
process exit code is 0, and the parse error in `ash -c "if true"` (missing
`fi`) also exits 0 — refuting that the exit code equals `last_status` and
that a parse error yields a nonzero exit. -/
theorem exit_code_counterexample :
    (mainOptC envFalse [] "false" 40).1.lastStatus = 1 ∧
    (mainOptC envFalse [] "false" 40).2 = 0 ∧
    (mainOptC envFalse [] "if true" 40).2 = 0 ∧
    (mainOptC envFalse [] "if true" 40).1.executed = [] := by
  exact ⟨by decide, rfl, rfl, by decide⟩

/-- C1 amended: in `-c` and script mode the exit code is 0 for every input
that could be read, regardless of `last_status` and of parse errors; it is 1
exactly when `-c` lacks its argument or the script file cannot be opened. -/
theorem exit_code_amended :
    (∀ (env : OsEnv) (penv : List (String × String)) (cmd : String) (fuel : Nat),
       (mainOptC env penv cmd fuel).2 = 0) ∧
    mainOptCMissingArg = 1 ∧
    (∀ (env : OsEnv) penv file args fuel,
       env.fileText file = none → (mainScriptMode env penv file args fuel).2 = 1) ∧
    (∀ (env : OsEnv) penv file args fuel text,
       env.fileText file = some text → (mainScriptMode env penv file args fuel).2 = 0) := by
  refine ⟨fun env penv cmd fuel => rfl, rfl, ?_, ?_⟩
  · intro env penv file args fuel h
    simp [mainScriptMode, h]
  · intro env penv file args fuel text h
    simp [mainScriptMode, h]

theorem exit_code_amended_witness :
    (mainScriptMode envFalse [] "script.sh" ["a"] 5).2 = 1 ∧
    (mainOptC envFalse [] "exit" 5).2 = 0 :=
  ⟨exit_code_amended.2.2.1 envFalse [] "script.sh" ["a"] 5 rfl,
   exit_code_amended.1 envFalse [] "exit" 5⟩

/-! ## C3 -/

/-- C3: the code violates short-circuit semantics.  With `false` exiting 1,
`false && echo hi` still runs `echo hi`, and `true || echo hi` never runs
`echo hi`, because the `&&`/`||` decision tests `parse_and_execute`'s return
value, which is 0 on every path (last conjunct). -/
theorem logic_ops_broken :
    (parseAndExecute envFalse 40 (stInit []) "false").1.lastStatus = 1 ∧
    (parseAndExecute envFalse 40 (stInit []) "false && echo hi").1.executed =
      [["false"], ["echo", "hi"]] ∧
    (parseAndExecute envFalse 40 (stInit []) "true || echo hi").1.executed =
      [["true"]] ∧
    (∀ fuel st input, (parseAndExecute envFalse fuel st input).2 = 0) :=
  ⟨by decide, by decide, by decide, parseAndExecute_ret envFalse⟩



/-! ## C2 / C6 tokenizer step and chunk lemmas -/

theorem sclRun_norm_sqopen (cur rest : List Char) (acc : List (List Char)) :
    sclRun QMode.norm cur ('\'' :: rest) acc = sclRun QMode.sq cur rest acc := by
  rw [sclRun.eq_def]
  simp

theorem sclRun_norm_dqopen (cur rest : List Char) (acc : List (List Char)) :
    sclRun QMode.norm cur ('"' :: rest) acc = sclRun QMode.dq cur rest acc := by
  rw [sclRun.eq_def]
  simp

theorem sclRun_sq_lit (cur : List Char) (c : Char) (rest : List Char)
    (acc : List (List Char)) (h : ¬ c = '\'') :
    sclRun QMode.sq cur (c :: rest) acc = sclRun QMode.sq (cur ++ [c]) rest acc := by
  rw [sclRun.eq_def]
  simp [h]

theorem sclRun_dq_esc (cur : List Char) (d : Char) (rest : List Char)
    (acc : List (List Char)) (hd : d = '"' ∨ d = '\\') :
    sclRun QMode.dq cur ('\\' :: d :: rest) acc =
      sclRun QMode.dq (cur ++ [d]) rest acc := by
  rcases hd with rfl | rfl <;> rfl

theorem sclRun_dq_lit (cur : List Char) (c : Char) (rest : List Char)
    (acc : List (List Char)) (h1 : ¬ c = '"') (h2 : ¬ c = '\\') :
    sclRun QMode.dq cur (c :: rest) acc = sclRun QMode.dq (cur ++ [c]) rest acc := by
  rw [sclRun.eq_def]
  simp [h1, h2]

theorem sclRun_sq_chunk (w : List Char) (hw : ∀ c ∈ w, ¬ c = '\'') :
    ∀ cur tail acc, sclRun QMode.sq cur (w ++ tail) acc =
      sclRun QMode.sq (cur ++ w) tail acc := by
  induction w with
  | nil => intro cur tail acc; simp
  | cons c w ih =>
    intro cur tail acc
    have hc : ¬ c = '\'' := hw c (List.mem_cons_self c w)
    have hw2 : ∀ d ∈ w, ¬ d = '\'' := fun d hd => hw d (List.mem_cons_of_mem c hd)
    rw [List.cons_append, sclRun_sq_lit cur c (w ++ tail) acc hc, ih hw2]
    simp

theorem sclRun_dq_chunk (w : List Char) :
    ∀ cur tail acc, sclRun QMode.dq cur (w.flatMap dqEscapeChar ++ tail) acc =
      sclRun QMode.dq (cur ++ w) tail acc := by
  induction w with
  | nil => intro cur tail acc; simp
  | cons c w ih =>
    intro cur tail acc
    by_cases hc : c = '"' ∨ c = '\\'
    · have hcond : (c = '"' || c = '\\') = true := by
        rcases hc with h | h <;> simp [h]
      have hesc : dqEscapeChar c = ['\\', c] := by
        simp only [dqEscapeChar]
        rw [if_pos hcond]
      rw [List.flatMap_cons, hesc, List.append_assoc, List.cons_append,
          List.cons_append, List.nil_append,
          sclRun_dq_esc cur c (w.flatMap dqEscapeChar ++ tail) acc hc, ih]
      simp
    · push_neg at hc
      obtain ⟨hc1, hc2⟩ := hc
      have hesc : dqEscapeChar c = [c] := by
        simp only [dqEscapeChar]
        rw [if_neg (by simp [hc1, hc2])]
      rw [List.flatMap_cons, hesc, List.append_assoc, List.cons_append,
          List.nil_append,
          sclRun_dq_lit cur c (w.flatMap dqEscapeChar ++ tail) acc hc1 hc2, ih]
      simp

/-! ## C2 -/

/-- C2 counterexample: the line `echo 'abc` has an unterminated single quote,
yet tokenization reports no error and produces exactly the tokens of
`echo 'abc'`, and the line is executed with status 0 — refuting that such a
line is rejected with a nonzero status. -/
theorem unterminated_quote_counterexample :
    splitCommandLine "echo 'abc" = ["echo", "abc"] ∧
    splitCommandLine "echo 'abc" = splitCommandLine "echo 'abc'" ∧
    (parseAndExecute envFalse 40 (stInit []) "echo 'abc").1.executed =
      [["echo", "abc"]] ∧
    (parseAndExecute envFalse 40 (stInit []) "echo 'abc").1.lastStatus = 0 := by
  exact ⟨by decide, by decide, by decide, by decide⟩

/-- The double-quote escape map is the identity on a chunk holding neither
`"` nor a backslash. -/
theorem dqEscape_flatMap_plain (w : List Char)
    (hw : ∀ c ∈ w, ¬ c = '"' ∧ ¬ c = '\\') :
    w.flatMap dqEscapeChar = w := by
  induction w with
  | nil => rfl
  | cons c w ih =>
    have hc := hw c (List.mem_cons_self c w)
    have hw2 : ∀ d ∈ w, ¬ d = '"' ∧ ¬ d = '\\' :=
      fun d hd => hw d (List.mem_cons_of_mem c hd)
    rw [List.flatMap_cons, ih hw2]
    simp [dqEscapeChar, hc.1, hc.2]

/-- C2 amended: tokenization never reports an error for an unterminated
quote and the line is executed normally.  From inside an unterminated single
quote, consuming the rest of the line (no closing quote in it) yields
exactly the tokens obtained had the quote been closed at end of line.  From
inside an unterminated double quote, end of input flushes the accumulated
word, and when the remainder holds neither `"` nor a backslash this too
equals the quote-closed-at-end-of-line tokens (a trailing backslash is kept
literally, so the equivalence does not extend to it). -/
theorem unterminated_quote_amended :
    (∀ cur acc w, (∀ c ∈ w, ¬ c = '\'') →
       sclRun QMode.sq cur w acc = sclRun QMode.sq cur (w ++ ['\'']) acc) ∧
    (∀ cur acc,
       sclRun QMode.dq cur [] acc = if cur = [] then acc else acc ++ [cur]) ∧
    (∀ cur acc w, (∀ c ∈ w, ¬ c = '"' ∧ ¬ c = '\\') →
       sclRun QMode.dq cur w acc = sclRun QMode.dq cur (w ++ ['"']) acc) ∧
    splitCommandLine "echo 'abc" = ["echo", "abc"] ∧
    splitCommandLine "echo \"abc" = splitCommandLine "echo \"abc\"" ∧
    (parseAndExecute envFalse 40 (stInit []) "echo \"abc").1.executed =
      [["echo", "abc"]] := by
  refine ⟨?_, fun cur acc => rfl, ?_, by decide, by decide, by decide⟩
  · intro cur acc w hw
    have h1 : sclRun QMode.sq cur w acc = sclRun QMode.sq (cur ++ w) [] acc := by
      have := sclRun_sq_chunk w hw cur [] acc
      simpa using this
    have h2 : sclRun QMode.sq cur (w ++ ['\'']) acc =
        sclRun QMode.sq (cur ++ w) ['\''] acc := sclRun_sq_chunk w hw cur ['\''] acc
    rw [h1, h2]
    rfl
  · intro cur acc w hw
    have hid : w.flatMap dqEscapeChar = w := dqEscape_flatMap_plain w hw
    have h1 : sclRun QMode.dq cur w acc = sclRun QMode.dq (cur ++ w) [] acc := by
      have := sclRun_dq_chunk w cur [] acc
      rw [hid] at this
      simpa using this
    have h2 : sclRun QMode.dq cur (w ++ ['"']) acc =
        sclRun QMode.dq (cur ++ w) ['"'] acc := by
      have := sclRun_dq_chunk w cur ['"'] acc
      rw [hid] at this
      exact this
    rw [h1, h2]
    rfl

theorem unterminated_quote_amended_witness :
    sclRun QMode.sq ['a'] ['b', 'c'] [] =
      sclRun QMode.sq ['a'] (['b', 'c'] ++ ['\'']) [] :=
  unterminated_quote_amended.1 ['a'] [] ['b', 'c'] (by decide)

/-! ## C6 -/

/-- C6 counterexample: the quoted forms of the empty word tokenize to no
word at all, not to the empty word — the round-trip fails for W = "". -/
theorem quoting_roundtrip_counterexample :
    sqQuoteForm "" = "''" ∧
    dqQuoteForm "" = "\"\"" ∧
    splitCommandLine (sqQuoteForm "") = [] ∧
    splitCommandLine (dqQuoteForm "") = [] ∧
    ([] : List String) ≠ [""] := by
  exact ⟨by decide, by decide, by decide, by decide, by decide⟩

/-- C6 amended: for every nonempty word W, tokenizing the double-quoted
escaped form of W yields exactly [W]; and when W contains no single quote,
tokenizing the single-quoted form does too.  (The empty word is the
exception: its quoted forms produce no word.) -/
theorem quoting_roundtrip_amended (W : String) (hW : ¬ W.data = []) :
    ((∀ c ∈ W.data, ¬ c = '\'') → splitCommandLine (sqQuoteForm W) = [W]) ∧
    splitCommandLine (dqQuoteForm W) = [W] := by
  obtain ⟨l⟩ := W
  simp only [] at hW ⊢
  constructor
  · intro hq
    show (sclRun QMode.norm [] ('\'' :: (l ++ ['\''])) []).map
      (fun x => String.mk x) = [⟨l⟩]
    rw [sclRun_norm_sqopen [] (l ++ ['\'']) [], sclRun_sq_chunk l hq [] ['\''] []]
    have e2 : sclRun QMode.sq ([] ++ l) ['\''] [] =
        if l = [] then [] else [l] := by
      simp only [List.nil_append]
      rfl
    rw [e2, if_neg hW]
    simp
  · show (sclRun QMode.norm [] ('"' :: (l.flatMap dqEscapeChar ++ ['"'])) []).map
      (fun x => String.mk x) = [⟨l⟩]
    rw [sclRun_norm_dqopen [] (l.flatMap dqEscapeChar ++ ['"']) [],
        sclRun_dq_chunk l [] ['"'] []]
    have e2 : sclRun QMode.dq ([] ++ l) ['"'] [] =
        if l = [] then [] else [l] := by
      simp only [List.nil_append]
      rfl
    rw [e2, if_neg hW]
    simp

theorem quoting_roundtrip_amended_witness :
    splitCommandLine (sqQuoteForm "a b") = ["a b"] ∧
    splitCommandLine (dqQuoteForm "a\"b\\c d") = ["a\"b\\c d"] :=
  ⟨(quoting_roundtrip_amended "a b" (by decide)).1 (by decide),
   (quoting_roundtrip_amended "a\"b\\c d" (by decide)).2⟩



/-! ## C7 -/

theorem findIdxA_some_mem {α : Type} (pred : α → Bool) :
    ∀ (l : List α) (i : Nat), findIdxA pred l = some i → ∃ x ∈ l, pred x = true := by
  intro l
  induction l with
  | nil => intro i h; simp [findIdxA] at h
  | cons c l ih =>
    intro i h
    simp only [findIdxA] at h
    by_cases hc : pred c = true
    · exact ⟨c, List.mem_cons_self c l, hc⟩
    · rw [if_neg hc] at h
      cases hg : findIdxA pred l with
      | none => rw [hg] at h; simp at h
      | some k =>
        obtain ⟨x, hx, hp⟩ := ih k hg
        exact ⟨x, List.mem_cons_of_mem c hx, hp⟩

theorem eq_mem_of_assign (a : String) (h : hasAssignShape a = true) :
    '=' ∈ a.data := by
  unfold hasAssignShape at h
  cases hf : findIdxA (fun c => c = '=') a.data with
  | none => rw [hf] at h; exact absurd h (by simp)
  | some i =>
    obtain ⟨x, hx, hpx⟩ := findIdxA_some_mem _ a.data i hf
    simp only [decide_eq_true_eq] at hpx
    rwa [hpx] at hx

/-- C7 amended: when every alias-expanded token has the `NAME=VALUE` shape
(nonempty NAME before the first `=`), no builtin fires and no external
command is forked; each NAME is stored via `set_var`; `parse_and_execute`
returns 0 — but `last_status` is left unchanged rather than set to 0. -/
theorem assignments_amended (env : OsEnv) (fuel : Nat) (st : St)
    (args : List String) (bg : Bool) (h1 : ¬ args = [])
    (h2 : args.all hasAssignShape = true) :
    runSimpleTail env (fuel + 1) st args bg = (applyAssigns st args, 0) ∧
    (applyAssigns st args).executed = st.executed ∧
    (applyAssigns st args).lastStatus = st.lastStatus := by
  refine ⟨?_, rfl, rfl⟩
  match args, h1 with
  | a0 :: rest, _ =>
    have ha0 : hasAssignShape a0 = true := by
      rw [List.all_cons, Bool.and_eq_true] at h2
      exact h2.1
    have hm : '=' ∈ a0.data := eq_mem_of_assign a0 ha0
    have hne : ∀ (b : String), ¬ '=' ∈ b.data → ¬ a0 = b :=
      fun b hnb e => hnb (e ▸ hm)
    have hHS : ∀ f, handleSimpleBuiltin env f st (a0 :: rest) = none := by
      intro f
      cases f with
      | zero => rfl
      | succ f2 =>
        simp only [handleSimpleBuiltin]
        rw [if_neg (hne "cd" (by decide)), if_neg (hne "exit" (by decide)),
            if_neg (hne "source" (by decide)), if_neg (hne "export" (by decide)),
            if_neg (hne "let" (by decide)), if_neg (hne "alias" (by decide)),
            if_neg (hne "unalias" (by decide))]
    have hEB : executeBuiltin env fuel st (a0 :: rest) = none := by
      cases fuel with
      | zero => rfl
      | succ f2 =>
        simp only [executeBuiltin, hHS f2]
        rw [if_neg (hne "history" (by decide)), if_neg (hne "jobs" (by decide)),
            if_neg (hne "fg" (by decide)), if_neg (hne "bg" (by decide))]
    simp only [runSimpleTail, hEB]
    rw [if_pos h2]

theorem assignments_amended_witness :
    runSimpleTail envFalse 10 { stInit [] with lastStatus := 1 }
        ["X=5", "Y=hello world"] false =
      (applyAssigns { stInit [] with lastStatus := 1 } ["X=5", "Y=hello world"], 0) :=
  (assignments_amended envFalse 9 { stInit [] with lastStatus := 1 }
    ["X=5", "Y=hello world"] false (by decide) (by decide)).1

/-- C7 counterexample: with `last_status = 1` beforehand, the assignment-only
command `X=5` stores X but leaves `last_status` at 1, refuting the claimed
"last_status is 0 afterwards". -/
theorem assignments_counterexample :
    (parseAndExecute envFalse 40 { stInit [] with lastStatus := 1 } "X=5").1.vars =
      [("X", "5")] ∧
    (parseAndExecute envFalse 40 { stInit [] with lastStatus := 1 } "X=5").1.executed =
      [] ∧
    (parseAndExecute envFalse 40 { stInit [] with lastStatus := 1 } "X=5").1.lastStatus =
      1 := by
  exact ⟨by decide, by decide, by decide⟩

/-! ## C4 -/

/-- C4 amended: a failing arithmetic evaluation (division or modulo by zero,
or an undefined identifier) makes `expand_arith_subst` return no
substitution, and when command substitution has not already consumed the
word (it runs first and eats any `$((`), the word passes through
`expand_vars` unchanged; `last_status` is not modified by expansion. -/
theorem arith_failure_amended :
    (∀ (vars : VarStore) (arg : String) (i j : Nat),
       substrIdx arg.data ['$', '(', '('] = some i →
       substrIdx (arg.data.drop (i + 3)) [')', ')'] = some j →
       (evalArith vars ⟨(arg.data.drop (i + 3)).take j⟩).2 = false →
       expandArithSubst vars arg = none) ∧
    (∀ (env : OsEnv) (vars : VarStore) (w : String),
       expandCmdSubst env w = none →
       expandArithSubst vars w = none →
       w.data.head? = some '$' → (w.data.drop 1).head? = some '(' →
       expandVarsWord env vars w = w) := by
  constructor
  · intro vars arg i j h1 h2 h3
    simp only [expandArithSubst, h1, h2]
    by_cases hlen : 256 ≤ ((arg.data.drop (i + 3)).take j).length
    · rw [if_pos hlen]
    · rw [if_neg hlen]
      rcases heval : evalArith vars ⟨(arg.data.drop (i + 3)).take j⟩ with ⟨v, ok⟩
      rw [heval] at h3
      simp only [] at h3
      simp [heval, h3]
  · intro env vars w hc ha h1 h2
    obtain ⟨t, ht⟩ : ∃ t, w.data = '$' :: t := by
      cases hd : w.data with
      | nil => rw [hd] at h1; exact absurd h1 (by simp)
      | cons a t =>
        rw [hd] at h1
        simp only [List.head?_cons, Option.some.injEq] at h1
        exact ⟨t, by rw [h1]⟩
    have h2x : w.data[1]? = some '(' := by
      rw [ht] at h2 ⊢
      rw [List.drop_one] at h2
      cases t with
      | nil => simp at h2
      | cons b t2 => simpa using h2
    simp only [expandVarsWord, hc, ha]
    rw [if_neg (by simp [h1]), if_neg (by simp [h1, h2x])]

theorem arith_failure_amended_witness :
    expandArithSubst [] "$((1/0))" = none ∧
    expandVarsWord envNoCap [] "$((1/0))" = "$((1/0))" :=
  ⟨arith_failure_amended.1 [] "$((1/0))" 0 3 (by decide) (by decide) (by decide),
   arith_failure_amended.2 envNoCap [] "$((1/0))"
     (by decide) (by decide) (by decide) (by decide)⟩

/-- C4 counterexample: under the working pipeline, `echo $((1/0))` does not
leave the `$((1/0))` text in place — command substitution consumes it first
(the word becomes the captured output of the subshell, here empty) — and
`last_status` ends 0, not nonzero. -/
theorem arith_failure_counterexample :
    (parseAndExecute envFalse 40 (stInit []) "echo $((1/0))").1.executed =
      [["echo", ""]] ∧
    (parseAndExecute envFalse 40 (stInit []) "echo $((1/0))").1.lastStatus = 0 ∧
    expandVarsWord envFalse [] "$((1/0))" = "" := by
  exact ⟨by decide, by decide, by decide⟩


end Ash

namespace Ash

/-! ## List lemmas for the job table -/

theorem findIdxA_some_get {α : Type} (pred : α → Bool) :
    ∀ (l : List α) (i : Nat), findIdxA pred l = some i →
      ∃ x, l.get? i = some x ∧ pred x = true := by
  intro l
  induction l with
  | nil => intro i h; simp [findIdxA] at h
  | cons c l ih =>
    intro i h
    simp only [findIdxA] at h
    by_cases hc : pred c = true
    · rw [if_pos hc] at h
      obtain rfl : i = 0 := by simpa using h.symm
      exact ⟨c, rfl, hc⟩
    · rw [if_neg hc] at h
      cases hg : findIdxA pred l with
      | none => rw [hg] at h; simp at h
      | some k =>
        rw [hg] at h
        obtain rfl : i = k + 1 := by simpa using h.symm
        obtain ⟨x, hx, hp⟩ := ih k hg
        exact ⟨x, by simpa using hx, hp⟩

theorem findIdxA_lt_false {α : Type} (pred : α → Bool) :
    ∀ (l : List α) (i : Nat), findIdxA pred l = some i →
      ∀ (k : Nat) (x : α), k < i → l.get? k = some x → pred x = false := by
  intro l
  induction l with
  | nil => intro i h; simp [findIdxA] at h
  | cons c l ih =>
    intro i h k x hk hget
    simp only [findIdxA] at h
    by_cases hc : pred c = true
    · rw [if_pos hc] at h
      obtain rfl : i = 0 := by simpa using h.symm
      exact absurd hk (Nat.not_lt_zero k)
    · rw [if_neg hc] at h
      cases hg : findIdxA pred l with
      | none => rw [hg] at h; simp at h
      | some m =>
        rw [hg] at h
        obtain rfl : i = m + 1 := by simpa using h.symm
        cases k with
        | zero =>
          obtain rfl : x = c := by simpa using hget.symm
          exact Bool.eq_false_iff.mpr hc
        | succ k2 =>
          exact ih m hg k2 x (Nat.lt_of_succ_lt_succ hk) (by simpa using hget)

theorem findIdxA_set_self {α : Type} (pred : α → Bool) :
    ∀ (l : List α) (i : Nat) (y : α), findIdxA pred l = some i → pred y = true →
      findIdxA pred (l.set i y) = some i := by
  intro l
  induction l with
  | nil => intro i y h _; simp [findIdxA] at h
  | cons c l ih =>
    intro i y h hy
    simp only [findIdxA] at h
    by_cases hc : pred c = true
    · rw [if_pos hc] at h
      obtain rfl : i = 0 := by simpa using h.symm
      simp [List.set, findIdxA, hy]
    · rw [if_neg hc] at h
      cases hg : findIdxA pred l with
      | none => rw [hg] at h; simp at h
      | some k =>
        rw [hg] at h
        obtain rfl : i = k + 1 := by simpa using h.symm
        show findIdxA pred (c :: l.set k y) = some (k + 1)
        simp only [findIdxA]
        rw [if_neg hc, ih k y hg hy]
        rfl

theorem get?_some_lt {α : Type} :
    ∀ (l : List α) (i : Nat) (x : α), l.get? i = some x → i < l.length := by
  intro l
  induction l with
  | nil => intro i x h; simp at h
  | cons c l ih =>
    intro i x h
    cases i with
    | zero => simp
    | succ k => exact Nat.succ_lt_succ (ih k x (by simpa using h))

theorem get?_set_self {α : Type} :
    ∀ (l : List α) (i : Nat) (x y : α), l.get? i = some x →
      (l.set i y).get? i = some y := by
  intro l
  induction l with
  | nil => intro i x y h; simp at h
  | cons c l ih =>
    intro i x y h
    cases i with
    | zero => rfl
    | succ k => exact ih k x y (by simpa using h)

theorem filter_length_set_tf {α : Type} (p : α → Bool) :
    ∀ (l : List α) (i : Nat) (x y : α), l.get? i = some x →
      p x = false → p y = true →
      ((l.set i y).filter p).length = (l.filter p).length + 1 := by
  intro l
  induction l with
  | nil => intro i x y h; simp at h
  | cons c l ih =>
    intro i x y hget hx hy
    cases i with
    | zero =>
      obtain rfl : x = c := by simpa using hget.symm
      show ((y :: l).filter p).length = ((x :: l).filter p).length + 1
      simp [List.filter_cons, hx, hy]
    | succ k =>
      show ((c :: l.set k y).filter p).length = ((c :: l).filter p).length + 1
      simp only [List.filter_cons]
      by_cases hc : p c = true
      · simp only [hc, if_true, List.length_cons]
        rw [ih k x y (by simpa using hget) hx hy]
      · simp only [hc, if_false]
        exact ih k x y (by simpa using hget) hx hy

theorem filter_length_set_ft {α : Type} (p : α → Bool) :
    ∀ (l : List α) (i : Nat) (x y : α), l.get? i = some x →
      p x = true → p y = false →
      (l.filter p).length = ((l.set i y).filter p).length + 1 := by
  intro l
  induction l with
  | nil => intro i x y h; simp at h
  | cons c l ih =>
    intro i x y hget hx hy
    cases i with
    | zero =>
      obtain rfl : x = c := by simpa using hget.symm
      show ((x :: l).filter p).length = ((y :: l).filter p).length + 1
      simp [List.filter_cons, hx, hy]
    | succ k =>
      show ((c :: l).filter p).length = ((c :: l.set k y).filter p).length + 1
      simp only [List.filter_cons]
      by_cases hc : p c = true
      · simp only [hc, if_true, List.length_cons]
        rw [ih k x y (by simpa using hget) hx hy]
      · simp only [hc, if_false]
        exact ih k x y (by simpa using hget) hx hy




/-! ## C8 -/

/-- A stopped-child event for a job already marked notified prints nothing. -/
theorem reapEvent_stopped_notified (t' : JTable) (p : Int) (i : Nat) (x : JobRec)
    (hfind : findJobByPid t' p = some i)
    (hget : t'.slots.get? i = some x)
    (hnot : x.notified = true) :
    (reapEvent t' (WaitEv.stopped p)).2 = [] := by
  simp only [reapEvent, hfind, hget, hnot]
  simp

/-- C8: for a running, un-notified job, the reaper prints exactly one notice
per observed transition — Running→Stopped marks the slot notified (so a
repeated poll prints nothing more), and Running→Done frees the slot in the
same step as its notice. -/
theorem reaper_notices (t : JTable) (p : Int) (i : Nat) (j : JobRec)
    (hfind : findJobByPid t p = some i)
    (hget : t.slots.get? i = some j)
    (hnot : j.notified = false)
    (hid : j.jobId = Int.ofNat i + 1)
    (hpid : j.pid = p) (hpne : ¬ j.pid = -1)
    (hlen : t.slots.length = 32) :
    reapEvent t (WaitEv.stopped p) =
      ({ t with slots := t.slots.set i ({ j with running := false, notified := true }) },
       [Notice.stoppedN j.jobId j.command]) ∧
    (reapEvent (reapEvent t (WaitEv.stopped p)).1 (WaitEv.stopped p)).2 = [] ∧
    reapEvent t (WaitEv.exited p) =
      ({ t with slots := t.slots.set i emptyJob, count := t.count - 1 },
       [Notice.doneN j.jobId j.command]) := by
  have hlt : i < t.slots.length := get?_some_lt t.slots i j hget
  have hid2 : j.jobId = (i : Int) + 1 := hid
  have h1 : reapEvent t (WaitEv.stopped p) =
      ({ t with slots := t.slots.set i ({ j with running := false, notified := true }) },
       [Notice.stoppedN j.jobId j.command]) := by
    simp only [reapEvent, hfind, hget, hnot]
    rw [if_neg (show ¬(false = true) from by simp)]
  refine ⟨h1, ?_, ?_⟩
  · rw [h1]
    refine reapEvent_stopped_notified _ p i
      ({ j with running := false, notified := true }) ?_ ?_ rfl
    · show findIdxA (fun jb => jb.pid = p)
        (t.slots.set i ({ j with running := false, notified := true })) = some i
      exact findIdxA_set_self _ t.slots i _ hfind (by simp [hpid])
    · show (t.slots.set i ({ j with running := false, notified := true })).get? i = _
      exact get?_set_self t.slots i j _ hget
  · have c1 : ¬ (j.jobId ≤ 0) := by rw [hid2]; omega
    have c2 : ¬ (32 < j.jobId) := by
      rw [hid2]
      have : i < 32 := hlen ▸ hlt
      omega
    have hidx : (j.jobId - 1).toNat = i := by rw [hid2]; omega
    have hget2 : (t.slots.set i ({ j with notified := true })).get? i =
        some ({ j with notified := true }) := get?_set_self t.slots i j _ hget
    have hrem : removeJob
        ({ t with slots := t.slots.set i ({ j with notified := true }) } : JTable)
        j.jobId =
        { t with slots := t.slots.set i emptyJob, count := t.count - 1 } := by
      simp only [removeJob]
      rw [if_neg (by simp [c1, c2])]
      show (match (t.slots.set i ({ j with notified := true })).get? ((j.jobId - 1).toNat)
          with
        | none => ({ t with slots := t.slots.set i ({ j with notified := true }) } : JTable)
        | some x =>
          if x.pid = -1 then
            ({ t with slots := t.slots.set i ({ j with notified := true }) } : JTable)
          else
            { slots := (t.slots.set i ({ j with notified := true })).set
                ((j.jobId - 1).toNat) emptyJob,
              count := t.count - 1 }) = _
      rw [hidx, hget2]
      simp only []
      rw [if_neg (by simpa using hpne)]
      simp [List.set_set]
    simp only [reapEvent, hfind, hget, hnot]
    rw [if_neg (show ¬(false = true) from by simp)]
    rw [hrem]

theorem reaper_notices_witness :
    (reapEvent (addJob jobsInit 5 5 "sleep 5" true).1 (WaitEv.stopped 5)).2 =
      [Notice.stoppedN 1 "sleep 5"] ∧
    (reapEvent (addJob jobsInit 5 5 "sleep 5" true).1 (WaitEv.exited 5)).2 =
      [Notice.doneN 1 "sleep 5"] := by
  have h := reaper_notices (addJob jobsInit 5 5 "sleep 5" true).1 5 0
    { pid := 5, pgid := 5, jobId := 1, running := true, foreground := false,
      notified := false, command := "sleep 5" }
    (by decide) (by decide) (by decide) (by decide) (by decide) (by decide) (by decide)
  exact ⟨by rw [h.1], by rw [h.2.2]⟩

theorem intOfNat_cast (n : Nat) : Int.ofNat n = (n : Int) := rfl

/-! ## C10 -/

/-- C10: the job-table operations keep `job_count` equal to the number of
occupied slots; `add_job` takes the lowest free slot and returns its index
plus one; `remove_job` with an id outside 1..32 or naming a free slot is a
no-op. -/
theorem job_table_invariant (t : JTable) (pid pgid : Int) (cmd : String)
    (bg : Bool) (id : Int)
    (hinv : t.count = Int.ofNat (t.slots.filter (fun j => j.pid != -1)).length)
    (hpid : ¬ pid = -1) :
    ((addJob t pid pgid cmd bg).1.count =
       Int.ofNat ((addJob t pid pgid cmd bg).1.slots.filter
         (fun j => j.pid != -1)).length) ∧
    ((removeJob t id).count =
       Int.ofNat ((removeJob t id).slots.filter (fun j => j.pid != -1)).length) ∧
    (∀ i, allocJobSlot t = some i →
       (addJob t pid pgid cmd bg).2 = Int.ofNat i + 1 ∧
       (∀ k jk, k < i → t.slots.get? k = some jk → ¬ jk.pid = -1)) ∧
    ((id ≤ 0 ∨ 32 < id) → removeJob t id = t) ∧
    (∀ j, t.slots.get? (id - 1).toNat = some j → j.pid = -1 → removeJob t id = t) := by
  refine ⟨?_, ?_, ?_, ?_, ?_⟩
  · cases halloc : allocJobSlot t with
    | none => simp only [addJob, halloc]; exact hinv
    | some i =>
      obtain ⟨x, hgx, hpx⟩ := findIdxA_some_get _ t.slots i halloc
      have hxfree : x.pid = -1 := by simpa using hpx
      have hxf : (fun (j : JobRec) => j.pid != -1) x = false := by simp [hxfree]
      have hnewt : (fun (j : JobRec) => j.pid != -1)
          { pid := pid, pgid := pgid, jobId := Int.ofNat i + 1, running := true,
            foreground := !bg, notified := false, command := strTake cmd 1023 } = true := by
        simp [hpid]
      simp only [addJob, halloc]
      rw [filter_length_set_tf _ t.slots i x _ hgx hxf hnewt, hinv]
      simp only [intOfNat_cast]
      omega
  · simp only [removeJob]
    split
    · exact hinv
    · split
      · exact hinv
      · split
        · exact hinv
        · rename_i x hg hx
          have hxt : (fun (j : JobRec) => j.pid != -1) x = true := by simp [hx]
          have hef : (fun (j : JobRec) => j.pid != -1) emptyJob = false := by
            simp [emptyJob]
          have hflt := filter_length_set_ft (fun (j : JobRec) => j.pid != -1)
            t.slots ((id - 1).toNat) x emptyJob hg hxt hef
          show t.count - 1 = Int.ofNat ((t.slots.set ((id - 1).toNat) emptyJob).filter
            (fun j => j.pid != -1)).length
          rw [hinv, hflt]
          simp only [intOfNat_cast]
          omega
  · intro i halloc
    constructor
    · simp [addJob, halloc]
    · intro k jk hk hgk
      have := findIdxA_lt_false _ t.slots i halloc k jk hk hgk
      simpa using this
  · intro h
    simp only [removeJob]
    split
    · rfl
    · rename_i hcond
      exfalso
      rcases h with h | h <;> simp [h] at hcond
  · intro j hget hpj
    simp only [removeJob]
    split
    · rfl
    · rw [hget]
      simp [hpj]

theorem job_table_invariant_witness :
    (addJob jobsInit 7 7 "x" false).2 = 1 ∧
    removeJob jobsInit 5 = jobsInit := by
  have h := job_table_invariant jobsInit 7 7 "x" false 5 (by decide) (by decide)
  constructor
  · have h2 := (h.2.2.1 0 (by decide)).1
    simpa using h2
  · exact h.2.2.2.2 emptyJob (by decide) (by decide)

end Ash
